import Mathlib

/- Verification of the Dubins path library (dubins.c).

   Shallow embedding of the C source over the real numbers: IEEE doubles are
   modelled as ℝ, the libm functions sin, cos, sqrt, acos and atan2 are
   modelled by their exact real counterparts (atan2(y, x) by the argument of
   the complex number x + y*i, which agrees with atan2 on every input,
   including atan2(0, 0) = 0), and the DubinsPath out-parameters are modelled
   by explicit state passing.  The while loop of dubins_path_sample_many is
   modelled with an explicit fuel parameter, `none` standing for fuel
   exhaustion. -/

namespace Dubins

noncomputable section

open Real

/-- Result codes of the C API (dubins.h). -/
inductive DubinsRes
  | EDUBOK
  | EDUBCOCONFIGS
  | EDUBPARAM
  | EDUBBADRHO
  | EDUBNOPATH
deriving DecidableEq

open DubinsRes

/-- A configuration (x, y, heading): the C double[3] triples q0, q1, q. -/
structure Pose where
  x : ℝ
  y : ℝ
  theta : ℝ

/-- The C struct DubinsPath: initial configuration qi[3], the three
    normalised segment parameters param[3], the turning radius rho and the
    selected word type (an index into the six words). -/
structure DubinsPath where
  qi0 : ℝ
  qi1 : ℝ
  qi2 : ℝ
  param0 : ℝ
  param1 : ℝ
  param2 : ℝ
  rho : ℝ
  type : Fin 6

/-- The three segment kinds L_SEG, S_SEG, R_SEG of dubins.c. -/
inductive SegType
  | L_SEG
  | S_SEG
  | R_SEG
deriving DecidableEq

open SegType

/-- DIRDATA: the segment types for each of the path words
    LSL, LSR, RSL, RSR, RLR, LRL (in this order). -/
def DIRDATA : Fin 6 → SegType × SegType × SegType
  | 0 => (L_SEG, S_SEG, L_SEG)
  | 1 => (L_SEG, S_SEG, R_SEG)
  | 2 => (R_SEG, S_SEG, L_SEG)
  | 3 => (R_SEG, S_SEG, R_SEG)
  | 4 => (R_SEG, L_SEG, R_SEG)
  | 5 => (L_SEG, R_SEG, L_SEG)

/-- The libm atan2(y, x), modelled as the argument of the complex number
    x + y*i, which lies in (-pi, pi] and satisfies atan2(0, 0) = 0. -/
def atan2 (y x : ℝ) : ℝ := Complex.arg ⟨x, y⟩

/-- fmodr from dubins.c: floating point modulus suitable for rings. -/
def fmodr (x y : ℝ) : ℝ := x - y * (⌊x / y⌋ : ℤ)

/-- mod2pi from dubins.c. -/
def mod2pi (theta : ℝ) : ℝ := fmodr theta (2 * π)

/-- dubins_LSL from dubins.c. -/
def dubins_LSL (alpha beta d : ℝ) : Option (ℝ × ℝ × ℝ) :=
  let sa := sin alpha
  let sb := sin beta
  let ca := cos alpha
  let cb := cos beta
  let c_ab := cos (alpha - beta)
  let tmp0 := d + sa - sb
  let p_squared := 2 + (d * d) - (2 * c_ab) + (2 * d * (sa - sb))
  if p_squared < 0 then none
  else
    let tmp1 := atan2 (cb - ca) tmp0
    let t := mod2pi (-alpha + tmp1)
    let p := Real.sqrt p_squared
    let q := mod2pi (beta - tmp1)
    some (t, p, q)

/-- dubins_RSR from dubins.c. -/
def dubins_RSR (alpha beta d : ℝ) : Option (ℝ × ℝ × ℝ) :=
  let sa := sin alpha
  let sb := sin beta
  let ca := cos alpha
  let cb := cos beta
  let c_ab := cos (alpha - beta)
  let tmp0 := d - sa + sb
  let p_squared := 2 + (d * d) - (2 * c_ab) + (2 * d * (sb - sa))
  if p_squared < 0 then none
  else
    let tmp1 := atan2 (ca - cb) tmp0
    let t := mod2pi (alpha - tmp1)
    let p := Real.sqrt p_squared
    let q := mod2pi (-beta + tmp1)
    some (t, p, q)

/-- dubins_LSR from dubins.c. -/
def dubins_LSR (alpha beta d : ℝ) : Option (ℝ × ℝ × ℝ) :=
  let sa := sin alpha
  let sb := sin beta
  let ca := cos alpha
  let cb := cos beta
  let c_ab := cos (alpha - beta)
  let p_squared := -2 + (d * d) + (2 * c_ab) + (2 * d * (sa + sb))
  if p_squared < 0 then none
  else
    let p := Real.sqrt p_squared
    let tmp2 := atan2 (-ca - cb) (d + sa + sb) - atan2 (-2) p
    let t := mod2pi (-alpha + tmp2)
    let q := mod2pi (-mod2pi beta + tmp2)
    some (t, p, q)

/-- dubins_RSL from dubins.c. -/
def dubins_RSL (alpha beta d : ℝ) : Option (ℝ × ℝ × ℝ) :=
  let sa := sin alpha
  let sb := sin beta
  let ca := cos alpha
  let cb := cos beta
  let c_ab := cos (alpha - beta)
  let p_squared := (d * d) - 2 + (2 * c_ab) - (2 * d * (sa + sb))
  if p_squared < 0 then none
  else
    let p := Real.sqrt p_squared
    let tmp2 := atan2 (ca + cb) (d - sa - sb) - atan2 2 p
    let t := mod2pi (alpha - tmp2)
    let q := mod2pi (beta - tmp2)
    some (t, p, q)

/-- dubins_RLR from dubins.c. -/
def dubins_RLR (alpha beta d : ℝ) : Option (ℝ × ℝ × ℝ) :=
  let sa := sin alpha
  let sb := sin beta
  let ca := cos alpha
  let cb := cos beta
  let c_ab := cos (alpha - beta)
  let tmp_rlr := (6 - d * d + 2 * c_ab + 2 * d * (sa - sb)) / 8
  if 1 < |tmp_rlr| then none
  else
    let p := mod2pi (2 * π - arccos tmp_rlr)
    let t := mod2pi (alpha - atan2 (ca - cb) (d - sa + sb) + mod2pi (p / 2))
    let q := mod2pi (alpha - beta - t + mod2pi p)
    some (t, p, q)

/-- dubins_LRL from dubins.c. -/
def dubins_LRL (alpha beta d : ℝ) : Option (ℝ × ℝ × ℝ) :=
  let sa := sin alpha
  let sb := sin beta
  let ca := cos alpha
  let cb := cos beta
  let c_ab := cos (alpha - beta)
  let tmp_lrl := (6 - d * d + 2 * c_ab + 2 * d * (-sa + sb)) / 8
  if 1 < |tmp_lrl| then none
  else
    let p := mod2pi (2 * π - arccos tmp_lrl)
    let t := mod2pi (-alpha - atan2 (ca - cb) (d + sa - sb) + p / 2)
    let q := mod2pi (mod2pi beta - alpha - t + mod2pi p)
    some (t, p, q)

/-- The dubins_words table, in its fixed evaluation order. -/
def dubins_words : Fin 6 → ℝ → ℝ → ℝ → Option (ℝ × ℝ × ℝ)
  | 0 => dubins_LSL
  | 1 => dubins_LSR
  | 2 => dubins_RSL
  | 3 => dubins_RSR
  | 4 => dubins_RLR
  | 5 => dubins_LRL

/-- The solver loop of dubins_init_normalised.  The running pair
    (best_cost, best_word) is modelled as an Option, `none` standing for the
    initial best_cost = INFINITY, best_word = -1 state (every finite cost
    beats INFINITY); the DubinsPath argument is the out-parameter state,
    whose param and type fields are overwritten each time a new best word is
    found, exactly as in the C loop. -/
def initLoop (alpha beta d : ℝ) :
    List (Fin 6) → Option (ℝ × Fin 6) → DubinsPath → Option (ℝ × Fin 6) × DubinsPath
  | [], best, path => (best, path)
  | i :: rest, best, path =>
    match dubins_words i alpha beta d with
    | none => initLoop alpha beta d rest best path
    | some (t, p, q) =>
      let cost := t + p + q
      match best with
      | none =>
        initLoop alpha beta d rest (some (cost, i))
          { path with param0 := t, param1 := p, param2 := q, type := i }
      | some bc =>
        if cost < bc.1 then
          initLoop alpha beta d rest (some (cost, i))
            { path with param0 := t, param1 := p, param2 := q, type := i }
        else
          initLoop alpha beta d rest best path

/-- dubins_init_normalised from dubins.c. -/
def dubins_init_normalised (alpha beta d : ℝ) (path : DubinsPath) :
    DubinsRes × DubinsPath :=
  match initLoop alpha beta d [0, 1, 2, 3, 4, 5] none path with
  | (none, path2) => (EDUBNOPATH, path2)
  | (some (_, bestWord), path2) => (EDUBOK, { path2 with type := bestWord })

/-- dubins_init from dubins.c.  Note that d = D / rho is computed before the
    radius check, but is dead in the error branch; qi and rho are written
    before any solver is invoked. -/
def dubins_init (q0 q1 : Pose) (rho : ℝ) (path : DubinsPath) :
    DubinsRes × DubinsPath :=
  let dx := q1.x - q0.x
  let dy := q1.y - q0.y
  let bigD := Real.sqrt (dx * dx + dy * dy)
  let d := bigD / rho
  if rho ≤ 0 then (EDUBBADRHO, path)
  else
    let theta := mod2pi (atan2 dy dx)
    let alpha := mod2pi (q0.theta - theta)
    let beta := mod2pi (q1.theta - theta)
    dubins_init_normalised alpha beta d
      { path with qi0 := q0.x, qi1 := q0.y, qi2 := q0.theta, rho := rho }

/-- dubins_path_length from dubins.c. -/
def dubins_path_length (path : DubinsPath) : ℝ :=
  (path.param0 + path.param1 + path.param2) * path.rho

/-- Field selection for the C array access path->param[i], i in {0,1,2}. -/
def paramAt (path : DubinsPath) : ℕ → ℝ
  | 0 => path.param0
  | 1 => path.param1
  | _ => path.param2

/-- dubins_segment_length from dubins.c; the INFINITY sentinel for an
    out-of-range index is modelled by the top element of EReal. -/
def dubins_segment_length (path : DubinsPath) (i : ℤ) : EReal :=
  if i < 0 ∨ 2 < i then (⊤ : EReal)
  else ((paramAt path i.toNat * path.rho : ℝ) : EReal)

/-- dubins_segment_length_normalized from dubins.c. -/
def dubins_segment_length_normalized (path : DubinsPath) (i : ℤ) : EReal :=
  if i < 0 ∨ 2 < i then (⊤ : EReal)
  else ((paramAt path i.toNat : ℝ) : EReal)

/-- dubins_path_type from dubins.c. -/
def dubins_path_type (path : DubinsPath) : Fin 6 := path.type

/-- dubins_segment from dubins.c. -/
def dubins_segment (t : ℝ) (qi : Pose) (ty : SegType) : Pose :=
  match ty with
  | L_SEG => ⟨qi.x + sin (qi.theta + t) - sin qi.theta,
              qi.y - cos (qi.theta + t) + cos qi.theta,
              qi.theta + t⟩
  | R_SEG => ⟨qi.x - sin (qi.theta - t) + sin qi.theta,
              qi.y + cos (qi.theta - t) - cos qi.theta,
              qi.theta - t⟩
  | S_SEG => ⟨qi.x + cos qi.theta * t,
              qi.y + sin qi.theta * t,
              qi.theta⟩

/-- The in-range body of dubins_path_sample: the five-stage transformation
    performed after the parameter range check has passed. -/
def samplePose (path : DubinsPath) (t : ℝ) : Pose :=
  let tprime := t / path.rho
  let qi : Pose := ⟨0, 0, path.qi2⟩
  let types := DIRDATA path.type
  let p1 := path.param0
  let p2 := path.param1
  let q1 := dubins_segment p1 qi types.1
  let q2 := dubins_segment p2 q1 types.2.1
  let q :=
    if tprime < p1 then dubins_segment tprime qi types.1
    else if tprime < p1 + p2 then dubins_segment (tprime - p1) q1 types.2.1
    else dubins_segment (tprime - p1 - p2) q2 types.2.2
  ⟨q.x * path.rho + path.qi0, q.y * path.rho + path.qi1, mod2pi q.theta⟩

/-- dubins_path_sample from dubins.c. -/
def dubins_path_sample (path : DubinsPath) (t : ℝ) : Except DubinsRes Pose :=
  if t < 0 ∨ dubins_path_length path ≤ t then .error EDUBPARAM
  else .ok (samplePose path t)

/-- EPSILON from dubins.c (10e-10). -/
def EPSILON : ℝ := 10e-10

/-- dubins_path_endpoint from dubins.c. -/
def dubins_path_endpoint (path : DubinsPath) : Except DubinsRes Pose :=
  dubins_path_sample path (dubins_path_length path - EPSILON)

/-- The while loop of dubins_path_sample_many: x is the current arc length
    and q the sample out-parameter (left stale when a sample fails, as the C
    code ignores the return code of dubins_path_sample); the fuel parameter
    bounds the number of iterations of the C while loop, `none` standing for
    fuel exhaustion. -/
def sampleManyLoop (path : DubinsPath) (cb : Pose → ℝ → ℤ) (stepSize : ℝ) :
    ℕ → ℝ → Pose → Option ℤ
  | 0, _, _ => none
  | fuel + 1, x, q =>
    if x < dubins_path_length path then
      let q2 := match dubins_path_sample path x with
        | .ok p => p
        | .error _ => q
      let retcode := cb q2 x
      if retcode ≠ 0 then some retcode
      else sampleManyLoop path cb stepSize fuel (x + stepSize) q2
    else some 0

/-- dubins_path_sample_many from dubins.c, with explicit fuel and an
    explicit initial value q0 for the uninitialised sample buffer q[3]. -/
def dubins_path_sample_many (path : DubinsPath) (cb : Pose → ℝ → ℤ)
    (stepSize : ℝ) (fuel : ℕ) (q0 : Pose) : Option ℤ :=
  sampleManyLoop path cb stepSize fuel 0 q0

/-- dubins_extract_subpath from dubins.c; the C function unconditionally
    returns 0 (EDUBOK). -/
def dubins_extract_subpath (path : DubinsPath) (t : ℝ) : DubinsRes × DubinsPath :=
  let tprime := t / path.rho
  let p0 := min path.param0 tprime
  let p1 := min path.param1 (tprime - p0)
  let p2 := min path.param2 (tprime - p0 - p1)
  (EDUBOK,
   { qi0 := path.qi0, qi1 := path.qi1, qi2 := path.qi2,
     param0 := p0, param1 := p1, param2 := p2,
     rho := path.rho, type := path.type })

/-- Spec-side description of sampleMany, following the specification's
    wording: the visitor is invoked at x = 0, stepSize, 2*stepSize, ...
    strictly below the total length, and the result is the first nonzero
    visitor value, or 0 when there is none. -/
def sampleManySpec (path : DubinsPath) (cb : Pose → ℝ → ℤ) (stepSize : ℝ) : ℤ :=
  ((List.range ⌈dubins_path_length path / stepSize⌉₊).findSome? fun k : ℕ =>
      let x : ℝ := (k : ℝ) * stepSize
      let r := cb (samplePose path x) x
      if r = 0 then none else some r).getD 0

/- Basic facts about the angle utilities. -/

lemma two_pi_pos : (0 : ℝ) < 2 * π := by positivity

lemma mod2pi_eq_fract (x : ℝ) : mod2pi x = (2 * π) * Int.fract (x / (2 * π)) := by
  have h2 : (2 * π) ≠ 0 := ne_of_gt two_pi_pos
  unfold mod2pi fmodr Int.fract
  rw [mul_sub, mul_div_cancel₀ _ h2]

lemma mod2pi_nonneg (x : ℝ) : 0 ≤ mod2pi x := by
  rw [mod2pi_eq_fract]
  exact mul_nonneg two_pi_pos.le (Int.fract_nonneg _)

lemma mod2pi_eq_self {x : ℝ} (h0 : 0 ≤ x) (h1 : x < 2 * π) : mod2pi x = x := by
  unfold mod2pi fmodr
  have hfl : ⌊x / (2 * π)⌋ = 0 := by
    rw [Int.floor_eq_zero_iff]
    exact Set.mem_Ico.mpr ⟨div_nonneg h0 two_pi_pos.le, (div_lt_one two_pi_pos).mpr h1⟩
  rw [hfl]
  simp

lemma mod2pi_zero : mod2pi 0 = 0 := mod2pi_eq_self le_rfl two_pi_pos

lemma mod2pi_two_pi : mod2pi (2 * π) = 0 := by
  unfold mod2pi fmodr
  rw [div_self (ne_of_gt two_pi_pos)]
  simp

lemma mod2pi_pi : mod2pi π = π :=
  mod2pi_eq_self pi_pos.le (by linarith [pi_pos])

lemma mod2pi_pi_div_two : mod2pi (π / 2) = π / 2 :=
  mod2pi_eq_self (by positivity) (by linarith [pi_pos])

lemma atan2_zero_of_nonneg {x : ℝ} (h : 0 ≤ x) : atan2 0 x = 0 := by
  unfold atan2
  have hx : (⟨x, 0⟩ : ℂ) = (x : ℂ) := rfl
  rw [hx]
  exact Complex.arg_ofReal_of_nonneg h

lemma atan2_zero_zero : atan2 0 0 = 0 := atan2_zero_of_nonneg le_rfl

/- Every successful word solver output has three nonnegative components:
   the angular components are ring-modulus results and the straight
   components are square roots. -/

lemma dubins_LSL_nonneg {a b d t p q : ℝ} (h : dubins_LSL a b d = some (t, p, q)) :
    0 ≤ t ∧ 0 ≤ p ∧ 0 ≤ q := by
  simp only [dubins_LSL] at h
  split at h
  · exact absurd h (by simp)
  · simp only [Option.some.injEq, Prod.mk.injEq] at h
    obtain ⟨h1, h2, h3⟩ := h
    subst h1; subst h2; subst h3
    exact ⟨mod2pi_nonneg _, Real.sqrt_nonneg _, mod2pi_nonneg _⟩

lemma dubins_RSR_nonneg {a b d t p q : ℝ} (h : dubins_RSR a b d = some (t, p, q)) :
    0 ≤ t ∧ 0 ≤ p ∧ 0 ≤ q := by
  simp only [dubins_RSR] at h
  split at h
  · exact absurd h (by simp)
  · simp only [Option.some.injEq, Prod.mk.injEq] at h
    obtain ⟨h1, h2, h3⟩ := h
    subst h1; subst h2; subst h3
    exact ⟨mod2pi_nonneg _, Real.sqrt_nonneg _, mod2pi_nonneg _⟩

lemma dubins_LSR_nonneg {a b d t p q : ℝ} (h : dubins_LSR a b d = some (t, p, q)) :
    0 ≤ t ∧ 0 ≤ p ∧ 0 ≤ q := by
  simp only [dubins_LSR] at h
  split at h
  · exact absurd h (by simp)
  · simp only [Option.some.injEq, Prod.mk.injEq] at h
    obtain ⟨h1, h2, h3⟩ := h
    subst h1; subst h2; subst h3
    exact ⟨mod2pi_nonneg _, Real.sqrt_nonneg _, mod2pi_nonneg _⟩

lemma dubins_RSL_nonneg {a b d t p q : ℝ} (h : dubins_RSL a b d = some (t, p, q)) :
    0 ≤ t ∧ 0 ≤ p ∧ 0 ≤ q := by
  simp only [dubins_RSL] at h
  split at h
  · exact absurd h (by simp)
  · simp only [Option.some.injEq, Prod.mk.injEq] at h
    obtain ⟨h1, h2, h3⟩ := h
    subst h1; subst h2; subst h3
    exact ⟨mod2pi_nonneg _, Real.sqrt_nonneg _, mod2pi_nonneg _⟩

lemma dubins_RLR_nonneg {a b d t p q : ℝ} (h : dubins_RLR a b d = some (t, p, q)) :
    0 ≤ t ∧ 0 ≤ p ∧ 0 ≤ q := by
  simp only [dubins_RLR] at h
  split at h
  · exact absurd h (by simp)
  · simp only [Option.some.injEq, Prod.mk.injEq] at h
    obtain ⟨h1, h2, h3⟩ := h
    subst h1; subst h2; subst h3
    exact ⟨mod2pi_nonneg _, mod2pi_nonneg _, mod2pi_nonneg _⟩

lemma dubins_LRL_nonneg {a b d t p q : ℝ} (h : dubins_LRL a b d = some (t, p, q)) :
    0 ≤ t ∧ 0 ≤ p ∧ 0 ≤ q := by
  simp only [dubins_LRL] at h
  split at h
  · exact absurd h (by simp)
  · simp only [Option.some.injEq, Prod.mk.injEq] at h
    obtain ⟨h1, h2, h3⟩ := h
    subst h1; subst h2; subst h3
    exact ⟨mod2pi_nonneg _, mod2pi_nonneg _, mod2pi_nonneg _⟩

lemma dubins_words_nonneg (i : Fin 6) {a b d t p q : ℝ}
    (h : dubins_words i a b d = some (t, p, q)) : 0 ≤ t ∧ 0 ≤ p ∧ 0 ≤ q := by
  fin_cases i
  · exact dubins_LSL_nonneg h
  · exact dubins_LSR_nonneg h
  · exact dubins_RSL_nonneg h
  · exact dubins_RSR_nonneg h
  · exact dubins_RLR_nonneg h
  · exact dubins_LRL_nonneg h

/- Structural lemmas about the solver loop of dubins_init_normalised. -/

lemma initLoop_frame (a b d : ℝ) (L : List (Fin 6)) (best : Option (ℝ × Fin 6))
    (path : DubinsPath) :
    (initLoop a b d L best path).2.qi0 = path.qi0 ∧
    (initLoop a b d L best path).2.qi1 = path.qi1 ∧
    (initLoop a b d L best path).2.qi2 = path.qi2 ∧
    (initLoop a b d L best path).2.rho = path.rho := by
  induction L generalizing best path with
  | nil => exact ⟨rfl, rfl, rfl, rfl⟩
  | cons i rest ih =>
    cases hw : dubins_words i a b d with
    | none =>
      simp only [initLoop, hw]
      exact ih best path
    | some o =>
      obtain ⟨t, p, q⟩ := o
      cases best with
      | none =>
        simp only [initLoop, hw]
        exact ih _ _
      | some bc =>
        simp only [initLoop, hw]
        by_cases hc : t + p + q < bc.1
        · rw [if_pos hc]; exact ih _ _
        · rw [if_neg hc]; exact ih _ _

lemma initLoop_some (a b d : ℝ) (L : List (Fin 6)) (bc : ℝ × Fin 6)
    (path : DubinsPath) :
    ∃ bc2, (initLoop a b d L (some bc) path).1 = some bc2 := by
  induction L generalizing bc path with
  | nil => exact ⟨bc, rfl⟩
  | cons i rest ih =>
    cases hw : dubins_words i a b d with
    | none =>
      simp only [initLoop, hw]
      exact ih bc path
    | some o =>
      obtain ⟨t, p, q⟩ := o
      simp only [initLoop, hw]
      by_cases hc : t + p + q < bc.1
      · rw [if_pos hc]; exact ih _ _
      · rw [if_neg hc]; exact ih _ _

lemma initLoop_none (a b d : ℝ) (L : List (Fin 6)) (best : Option (ℝ × Fin 6))
    (path : DubinsPath) (h : (initLoop a b d L best path).1 = none) :
    (initLoop a b d L best path).2 = path := by
  induction L generalizing best path with
  | nil => rfl
  | cons i rest ih =>
    cases hw : dubins_words i a b d with
    | none =>
      simp only [initLoop, hw] at h ⊢
      exact ih best path h
    | some o =>
      obtain ⟨t, p, q⟩ := o
      cases best with
      | none =>
        exfalso
        simp only [initLoop, hw] at h
        obtain ⟨bc2, hbc2⟩ := initLoop_some a b d rest (t + p + q, i)
          { path with param0 := t, param1 := p, param2 := q, type := i }
        simp only [hbc2] at h
        exact absurd h (by simp)
      | some bc =>
        simp only [initLoop, hw] at h ⊢
        by_cases hc : t + p + q < bc.1
        · exfalso
          rw [if_pos hc] at h
          obtain ⟨bc2, hbc2⟩ := initLoop_some a b d rest (t + p + q, i)
            { path with param0 := t, param1 := p, param2 := q, type := i }
          simp only [hbc2] at h
          exact absurd h (by simp)
        · rw [if_neg hc] at h ⊢
          exact ih (some bc) path h

lemma initLoop_param_nonneg (a b d : ℝ) (L : List (Fin 6))
    (best : Option (ℝ × Fin 6)) (path : DubinsPath)
    (hstart : best.isSome →
      0 ≤ path.param0 ∧ 0 ≤ path.param1 ∧ 0 ≤ path.param2)
    (hres : (initLoop a b d L best path).1.isSome) :
    0 ≤ (initLoop a b d L best path).2.param0 ∧
    0 ≤ (initLoop a b d L best path).2.param1 ∧
    0 ≤ (initLoop a b d L best path).2.param2 := by
  induction L generalizing best path with
  | nil => exact hstart hres
  | cons i rest ih =>
    cases hw : dubins_words i a b d with
    | none =>
      simp only [initLoop, hw] at hres ⊢
      exact ih best path hstart hres
    | some o =>
      obtain ⟨t, p, q⟩ := o
      have hout := dubins_words_nonneg i hw
      cases best with
      | none =>
        simp only [initLoop, hw] at hres ⊢
        refine ih _ _ (fun _ => ?_) hres
        exact ⟨hout.1, hout.2.1, hout.2.2⟩
      | some bc =>
        simp only [initLoop, hw] at hres ⊢
        by_cases hc : t + p + q < bc.1
        · rw [if_pos hc] at hres ⊢
          refine ih _ _ (fun _ => ?_) hres
          exact ⟨hout.1, hout.2.1, hout.2.2⟩
        · rw [if_neg hc] at hres ⊢
          exact ih (some bc) path hstart hres

/- The loop, once the running best cost is at most the cost of every
   remaining feasible word, changes nothing. -/

lemma initLoop_skip (a b d : ℝ) (L : List (Fin 6)) (bc : ℝ × Fin 6)
    (path : DubinsPath)
    (hmin : ∀ i ∈ L, ∀ t p q : ℝ,
      dubins_words i a b d = some (t, p, q) → bc.1 ≤ t + p + q) :
    initLoop a b d L (some bc) path = (some bc, path) := by
  induction L with
  | nil => rfl
  | cons i rest ih =>
    cases hw : dubins_words i a b d with
    | none =>
      simp only [initLoop, hw]
      exact ih fun j hj => hmin j (List.mem_cons_of_mem i hj)
    | some o =>
      obtain ⟨t, p, q⟩ := o
      have hle : bc.1 ≤ t + p + q := hmin i (List.mem_cons_self i rest) t p q hw
      simp only [initLoop, hw]
      rw [if_neg (not_lt.mpr hle)]
      exact ih fun j hj => hmin j (List.mem_cons_of_mem i hj)

/- The main characterisation: scanning L1 ++ w :: L2, where the word w is
   feasible, strictly cheaper than every feasible word of the prefix L1 and
   at most as expensive as every feasible word of the suffix L2 (and than
   the incoming running best), ends with w selected and its parameters
   stored. -/

lemma initLoop_min (a b d : ℝ) (L1 L2 : List (Fin 6)) (w : Fin 6)
    (t p q : ℝ) (best : Option (ℝ × Fin 6)) (path : DubinsPath)
    (hw : dubins_words w a b d = some (t, p, q))
    (hpre : ∀ i ∈ L1, ∀ t2 p2 q2 : ℝ,
      dubins_words i a b d = some (t2, p2, q2) → t + p + q < t2 + p2 + q2)
    (hsuf : ∀ i ∈ L2, ∀ t2 p2 q2 : ℝ,
      dubins_words i a b d = some (t2, p2, q2) → t + p + q ≤ t2 + p2 + q2)
    (hbest : ∀ bc : ℝ × Fin 6, best = some bc → t + p + q < bc.1) :
    initLoop a b d (L1 ++ w :: L2) best path =
      (some (t + p + q, w),
       { path with param0 := t, param1 := p, param2 := q, type := w }) := by
  induction L1 generalizing best path with
  | nil =>
    cases best with
    | none =>
      simp only [List.nil_append, initLoop, hw]
      exact initLoop_skip a b d L2 _ _ hsuf
    | some bc =>
      simp only [List.nil_append, initLoop, hw]
      rw [if_pos (hbest bc rfl)]
      exact initLoop_skip a b d L2 _ _ hsuf
  | cons i rest ih =>
    cases hw2 : dubins_words i a b d with
    | none =>
      simp only [List.cons_append, initLoop, hw2]
      exact ih best path (fun j hj => hpre j (List.mem_cons_of_mem i hj)) hbest
    | some o =>
      obtain ⟨t2, p2, q2⟩ := o
      have hlt : t + p + q < t2 + p2 + q2 :=
        hpre i (List.mem_cons_self i rest) t2 p2 q2 hw2
      cases best with
      | none =>
        simp only [List.cons_append, initLoop, hw2]
        exact ih _ _ (fun j hj => hpre j (List.mem_cons_of_mem i hj))
          (fun bc hbc => by
            simp only [Option.some.injEq] at hbc
            rw [← hbc]
            exact hlt)
      | some bc =>
        simp only [List.cons_append, initLoop, hw2]
        by_cases hc : t2 + p2 + q2 < bc.1
        · rw [if_pos hc]
          exact ih _ _ (fun j hj => hpre j (List.mem_cons_of_mem i hj))
            (fun bc2 hbc2 => by
              simp only [Option.some.injEq] at hbc2
              rw [← hbc2]
              exact hlt)
        · rw [if_neg hc]
          exact ih (some bc) path
            (fun j hj => hpre j (List.mem_cons_of_mem i hj)) hbest

/- Concrete evaluations of the embedding, used below as witnesses. -/

lemma dubins_words_w0 : dubins_words 0 = dubins_LSL := rfl

lemma dubins_words_w1 : dubins_words 1 = dubins_LSR := rfl

lemma dubins_words_w2 : dubins_words 2 = dubins_RSL := rfl

lemma dubins_words_w3 : dubins_words 3 = dubins_RSR := rfl

lemma dubins_words_w4 : dubins_words 4 = dubins_RLR := rfl

lemma dubins_words_w5 : dubins_words 5 = dubins_LRL := rfl

lemma sqrt_sixteen : Real.sqrt 16 = 4 := by
  rw [show (16 : ℝ) = 4 ^ 2 by norm_num, Real.sqrt_sq (by norm_num : (0:ℝ) ≤ 4)]

lemma atan2_zero_four : atan2 0 4 = 0 := atan2_zero_of_nonneg (by norm_num)

lemma two_pi_sub_pi : 2 * π - π = π := by ring

lemma neg_pi_div_two_add_pi : -(π / 2) + π = π / 2 := by ring

lemma dubins_LSL_eval_000 : dubins_LSL 0 0 0 = some (0, 0, 0) := by
  simp only [dubins_LSL]
  norm_num [atan2_zero_zero, mod2pi_zero]

lemma dubins_LSL_eval_004 : dubins_LSL 0 0 4 = some (0, 4, 0) := by
  simp only [dubins_LSL]
  norm_num [atan2_zero_four, mod2pi_zero, sqrt_sixteen]

lemma dubins_LSR_eval_004 : dubins_LSR 0 0 4 = some (0, 4, 0) := by
  simp only [dubins_LSR]
  norm_num [mod2pi_zero, sqrt_sixteen]

lemma dubins_RSL_eval_004 : dubins_RSL 0 0 4 = some (0, 4, 0) := by
  simp only [dubins_RSL]
  norm_num [mod2pi_zero, sqrt_sixteen]

lemma dubins_RSR_eval_004 : dubins_RSR 0 0 4 = some (0, 4, 0) := by
  simp only [dubins_RSR]
  norm_num [atan2_zero_four, mod2pi_zero, sqrt_sixteen]

lemma dubins_RLR_eval_004 : dubins_RLR 0 0 4 = some (π / 2, π, π / 2) := by
  simp only [dubins_RLR]
  norm_num [atan2_zero_four, mod2pi_zero, Real.arccos_neg_one, two_pi_sub_pi,
    mod2pi_pi, mod2pi_pi_div_two, neg_pi_div_two_add_pi]

lemma dubins_LRL_eval_004 : dubins_LRL 0 0 4 = some (π / 2, π, π / 2) := by
  simp only [dubins_LRL]
  norm_num [atan2_zero_four, mod2pi_zero, Real.arccos_neg_one, two_pi_sub_pi,
    mod2pi_pi, mod2pi_pi_div_two, neg_pi_div_two_add_pi]

lemma init_normalised_eval_000 (p0 : DubinsPath) :
    dubins_init_normalised 0 0 0 p0 =
      (EDUBOK, { p0 with param0 := 0, param1 := 0, param2 := 0, type := 0 }) := by
  have hw : dubins_words 0 0 0 0 = some (0, 0, 0) := by
    rw [dubins_words_w0]; exact dubins_LSL_eval_000
  have hloop :
      initLoop 0 0 0 ([] ++ 0 :: [1, 2, 3, 4, 5]) none p0 =
        (some ((0 : ℝ) + 0 + 0, 0),
         { p0 with param0 := 0, param1 := 0, param2 := 0, type := 0 }) := by
    refine initLoop_min 0 0 0 [] [1, 2, 3, 4, 5] 0 0 0 0 none p0 hw ?_ ?_ ?_
    · intro i hi
      exact absurd hi (List.not_mem_nil i)
    · intro i _ t2 p2 q2 h
      have hn := dubins_words_nonneg i h
      have := hn.1
      have := hn.2.1
      have := hn.2.2
      linarith
    · intro bc hbc
      exact Option.noConfusion hbc
  have hloop2 :
      initLoop 0 0 0 [0, 1, 2, 3, 4, 5] none p0 =
        (some ((0 : ℝ) + 0 + 0, 0),
         { p0 with param0 := 0, param1 := 0, param2 := 0, type := 0 }) := hloop
  simp only [dubins_init_normalised, hloop2]

lemma init_normalised_eval_004 (p0 : DubinsPath) :
    dubins_init_normalised 0 0 4 p0 =
      (EDUBOK, { p0 with param0 := 0, param1 := 4, param2 := 0, type := 0 }) := by
  have hw : dubins_words 0 0 0 4 = some (0, 4, 0) := by
    rw [dubins_words_w0]; exact dubins_LSL_eval_004
  have hloop :
      initLoop 0 0 4 ([] ++ 0 :: [1, 2, 3, 4, 5]) none p0 =
        (some ((0 : ℝ) + 4 + 0, 0),
         { p0 with param0 := 0, param1 := 4, param2 := 0, type := 0 }) := by
    refine initLoop_min 0 0 4 [] [1, 2, 3, 4, 5] 0 0 4 0 none p0 hw ?_ ?_ ?_
    · intro i hi
      exact absurd hi (List.not_mem_nil i)
    · intro i hi t2 p2 q2 h
      have hpi := Real.pi_gt_three
      simp only [List.mem_cons, List.not_mem_nil, or_false] at hi
      rcases hi with rfl | rfl | rfl | rfl | rfl
      · rw [dubins_words_w1, dubins_LSR_eval_004] at h
        simp only [Option.some.injEq, Prod.mk.injEq] at h
        obtain ⟨rfl, rfl, rfl⟩ := h
        norm_num
      · rw [dubins_words_w2, dubins_RSL_eval_004] at h
        simp only [Option.some.injEq, Prod.mk.injEq] at h
        obtain ⟨rfl, rfl, rfl⟩ := h
        norm_num
      · rw [dubins_words_w3, dubins_RSR_eval_004] at h
        simp only [Option.some.injEq, Prod.mk.injEq] at h
        obtain ⟨rfl, rfl, rfl⟩ := h
        norm_num
      · rw [dubins_words_w4, dubins_RLR_eval_004] at h
        simp only [Option.some.injEq, Prod.mk.injEq] at h
        obtain ⟨rfl, rfl, rfl⟩ := h
        linarith
      · rw [dubins_words_w5, dubins_LRL_eval_004] at h
        simp only [Option.some.injEq, Prod.mk.injEq] at h
        obtain ⟨rfl, rfl, rfl⟩ := h
        linarith
    · intro bc hbc
      exact Option.noConfusion hbc
  have hloop2 :
      initLoop 0 0 4 [0, 1, 2, 3, 4, 5] none p0 =
        (some ((0 : ℝ) + 4 + 0, 0),
         { p0 with param0 := 0, param1 := 4, param2 := 0, type := 0 }) := hloop
  simp only [dubins_init_normalised, hloop2]

lemma dubins_init_eval_same (p0 : DubinsPath) :
    dubins_init ⟨0, 0, 0⟩ ⟨0, 0, 0⟩ 1 p0 =
      (EDUBOK,
       { p0 with qi0 := 0, qi1 := 0, qi2 := 0, param0 := 0, param1 := 0,
                 param2 := 0, rho := 1, type := 0 }) := by
  simp only [dubins_init]
  norm_num [atan2_zero_zero, mod2pi_zero, init_normalised_eval_000]

lemma dubins_init_eval_straight (p0 : DubinsPath) :
    dubins_init ⟨0, 0, 0⟩ ⟨4, 0, 0⟩ 1 p0 =
      (EDUBOK,
       { p0 with qi0 := 0, qi1 := 0, qi2 := 0, param0 := 0, param1 := 4,
                 param2 := 0, rho := 1, type := 0 }) := by
  simp only [dubins_init]
  norm_num [atan2_zero_four, mod2pi_zero, sqrt_sixteen, init_normalised_eval_004]

/- Concrete path fixtures used by the witnesses below. -/

/-- An all-zero path record, used as the arbitrary prior contents of the
    DubinsPath out-parameter. -/
def pathZero : DubinsPath := ⟨0, 0, 0, 0, 0, 0, 0, 0⟩

/-- The path synthesised for pose0 = (0,0,0), pose1 = (4,0,0), rho = 1. -/
def pathStraight : DubinsPath := ⟨0, 0, 0, 0, 4, 0, 1, 0⟩

/-- The degenerate zero-length path synthesised for pose0 = pose1 = (0,0,0),
    rho = 1. -/
def pathDegenerate : DubinsPath := ⟨0, 0, 0, 0, 0, 0, 1, 0⟩

/- Further structural lemmas. -/

lemma dubins_segment_zero (qi : Pose) (ty : SegType) : dubins_segment 0 qi ty = qi := by
  cases ty <;> simp [dubins_segment]

lemma init_normalised_ok (a b d : ℝ) (p0 path : DubinsPath)
    (h : dubins_init_normalised a b d p0 = (EDUBOK, path)) :
    0 ≤ path.param0 ∧ 0 ≤ path.param1 ∧ 0 ≤ path.param2 ∧
    path.qi0 = p0.qi0 ∧ path.qi1 = p0.qi1 ∧ path.qi2 = p0.qi2 ∧
    path.rho = p0.rho := by
  have hfr := initLoop_frame a b d [0, 1, 2, 3, 4, 5] none p0
  cases hres : initLoop a b d [0, 1, 2, 3, 4, 5] none p0 with
  | mk best path2 =>
    rw [hres] at hfr
    simp only [dubins_init_normalised, hres] at h
    cases best with
    | none => exact absurd (congrArg Prod.fst h) (by simp)
    | some bc =>
      obtain ⟨c, bw⟩ := bc
      have hpath : path = { path2 with type := bw } := (congrArg Prod.snd h).symm
      have hnn := initLoop_param_nonneg a b d [0, 1, 2, 3, 4, 5] none p0
        (fun hc => by simp at hc) (by rw [hres]; rfl)
      rw [hres] at hnn
      rw [hpath]
      exact ⟨hnn.1, hnn.2.1, hnn.2.2, hfr.1, hfr.2.1, hfr.2.2.1, hfr.2.2.2⟩

lemma init_normalised_frame (a b d : ℝ) (p0 : DubinsPath) :
    ((dubins_init_normalised a b d p0).2.qi0 = p0.qi0 ∧
     (dubins_init_normalised a b d p0).2.qi1 = p0.qi1 ∧
     (dubins_init_normalised a b d p0).2.qi2 = p0.qi2 ∧
     (dubins_init_normalised a b d p0).2.rho = p0.rho) ∧
    ((dubins_init_normalised a b d p0).1 = EDUBNOPATH →
      (dubins_init_normalised a b d p0).2 = p0) := by
  have hfr := initLoop_frame a b d [0, 1, 2, 3, 4, 5] none p0
  cases hres : initLoop a b d [0, 1, 2, 3, 4, 5] none p0 with
  | mk best path2 =>
    rw [hres] at hfr
    simp only [dubins_init_normalised, hres]
    cases best with
    | none =>
      have hnone := initLoop_none a b d [0, 1, 2, 3, 4, 5] none p0 (by rw [hres])
      rw [hres] at hnone
      exact ⟨⟨hfr.1, hfr.2.1, hfr.2.2.1, hfr.2.2.2⟩, fun _ => hnone⟩
    | some bc =>
      obtain ⟨c, bw⟩ := bc
      exact ⟨⟨hfr.1, hfr.2.1, hfr.2.2.1, hfr.2.2.2⟩,
        fun hcontra => DubinsRes.noConfusion hcontra⟩

lemma dubins_init_ok (q0 q1 : Pose) {rho : ℝ} {p0 path : DubinsPath}
    (h : dubins_init q0 q1 rho p0 = (EDUBOK, path)) :
    0 ≤ path.param0 ∧ 0 ≤ path.param1 ∧ 0 ≤ path.param2 ∧
    path.rho = rho ∧ 0 < rho ∧
    path.qi0 = q0.x ∧ path.qi1 = q0.y ∧ path.qi2 = q0.theta := by
  by_cases hrho : rho ≤ 0
  · exfalso
    simp only [dubins_init] at h
    rw [if_pos hrho] at h
    exact DubinsRes.noConfusion (congrArg Prod.fst h)
  · simp only [dubins_init] at h
    rw [if_neg hrho] at h
    have hok := init_normalised_ok _ _ _ _ _ h
    exact ⟨hok.1, hok.2.1, hok.2.2.1, hok.2.2.2.2.2.2, not_le.mp hrho,
      hok.2.2.2.1, hok.2.2.2.2.1, hok.2.2.2.2.2.1⟩

/- Characterisation of the while loop of dubins_path_sample_many. -/

lemma sampleManyLoop_exit (path : DubinsPath) (cb : Pose → ℝ → ℤ)
    (stepSize x : ℝ) (fuel : ℕ) (q : Pose)
    (hx : dubins_path_length path ≤ x) :
    sampleManyLoop path cb stepSize (fuel + 1) x q = some 0 := by
  simp only [sampleManyLoop]
  rw [if_neg (not_lt.mpr hx)]

lemma len_le_of_ceil_le (path : DubinsPath) {stepSize : ℝ} (hstep : 0 < stepSize)
    {k : ℕ} (hk : ⌈dubins_path_length path / stepSize⌉₊ ≤ k) :
    dubins_path_length path ≤ (k : ℝ) * stepSize := by
  have h1 : dubins_path_length path / stepSize ≤ (k : ℝ) :=
    le_trans (Nat.le_ceil _) (Nat.cast_le.mpr hk)
  calc dubins_path_length path
      = dubins_path_length path / stepSize * stepSize := by
        rw [div_mul_cancel₀ _ (ne_of_gt hstep)]
    _ ≤ (k : ℝ) * stepSize := by
        exact mul_le_mul_of_nonneg_right h1 hstep.le

lemma lt_len_of_lt_ceil (path : DubinsPath) {stepSize : ℝ} (hstep : 0 < stepSize)
    {k : ℕ} (hk : k < ⌈dubins_path_length path / stepSize⌉₊) :
    (k : ℝ) * stepSize < dubins_path_length path := by
  have h1 : (k : ℝ) < dubins_path_length path / stepSize := Nat.lt_ceil.mp hk
  exact (lt_div_iff₀ hstep).mp h1

lemma findSome?_cons_none {α β : Type} (f : α → Option β) (a : α) (l : List α)
    (h : f a = none) : (a :: l).findSome? f = l.findSome? f := by
  simp [List.findSome?, h]

lemma findSome?_cons_some {α β : Type} (f : α → Option β) (a : α) (l : List α)
    (b : β) (h : f a = some b) : (a :: l).findSome? f = some b := by
  simp [List.findSome?, h]

lemma sampleManyLoop_step (path : DubinsPath) (cb : Pose → ℝ → ℤ)
    (stepSize : ℝ) (fuel : ℕ) (x : ℝ) (q : Pose) :
    sampleManyLoop path cb stepSize (fuel + 1) x q =
      if x < dubins_path_length path then
        let q2 := match dubins_path_sample path x with
          | .ok p => p
          | .error _ => q
        let retcode := cb q2 x
        if retcode ≠ 0 then some retcode
        else sampleManyLoop path cb stepSize fuel (x + stepSize) q2
      else some 0 := rfl

lemma sampleManyLoop_eq (path : DubinsPath) (cb : Pose → ℝ → ℤ)
    (stepSize : ℝ) (hstep : 0 < stepSize) :
    ∀ (m k : ℕ) (q : Pose),
      ⌈dubins_path_length path / stepSize⌉₊ ≤ k + m →
      sampleManyLoop path cb stepSize (m + 1) ((k : ℝ) * stepSize) q =
        some (((List.range' k (⌈dubins_path_length path / stepSize⌉₊ - k)).findSome?
          fun j : ℕ =>
            let x : ℝ := j * stepSize
            let r := cb (samplePose path x) x
            if r = 0 then none else some r).getD 0) := by
  intro m
  induction m with
  | zero =>
    intro k q hk
    rw [Nat.add_zero] at hk
    rw [Nat.sub_eq_zero_of_le hk]
    rw [sampleManyLoop_exit path cb stepSize _ 0 q (len_le_of_ceil_le path hstep hk)]
    rfl
  | succ m ih =>
    intro k q hk
    by_cases hkN : k < ⌈dubins_path_length path / stepSize⌉₊
    · have hxlt := lt_len_of_lt_ceil path hstep hkN
      have hxnn : (0 : ℝ) ≤ (k : ℝ) * stepSize :=
        mul_nonneg (Nat.cast_nonneg k) hstep.le
      have hsample : dubins_path_sample path ((k : ℝ) * stepSize) =
          .ok (samplePose path ((k : ℝ) * stepSize)) := by
        simp only [dubins_path_sample]
        rw [if_neg (not_or.mpr ⟨not_lt.mpr hxnn, not_le.mpr hxlt⟩)]
      have hrange : ⌈dubins_path_length path / stepSize⌉₊ - k =
          (⌈dubins_path_length path / stepSize⌉₊ - (k + 1)) + 1 := by omega
      rw [sampleManyLoop_step, if_pos hxlt]
      simp only [hsample]
      by_cases hr : cb (samplePose path ((k : ℝ) * stepSize)) ((k : ℝ) * stepSize) = 0
      · rw [if_neg (not_not.mpr hr)]
        have hx2 : (k : ℝ) * stepSize + stepSize = ((k + 1 : ℕ) : ℝ) * stepSize := by
          push_cast
          ring
        rw [hx2]
        rw [ih (k + 1) _ (by omega)]
        rw [hrange, List.range'_succ]
        rw [findSome?_cons_none _ _ _ (by simp [hr])]
      · rw [if_pos hr]
        rw [hrange, List.range'_succ]
        rw [findSome?_cons_some _ _ _
          (cb (samplePose path ((k : ℝ) * stepSize)) ((k : ℝ) * stepSize))
          (by simp [hr])]
        rfl
    · have hk2 : ⌈dubins_path_length path / stepSize⌉₊ ≤ k := not_lt.mp hkN
      rw [Nat.sub_eq_zero_of_le hk2]
      rw [sampleManyLoop_exit path cb stepSize _ _ q (len_le_of_ceil_le path hstep hk2)]
      rfl

/- The claims. -/

/-- C1: for every input (alpha, beta, d) on which at least one of the six word
    solvers succeeds, dubins_init_normalised returns EDUBOK and stores the
    feasible word whose cost t+p+q is minimal among all succeeding solvers,
    ties being resolved in favour of the earlier word in the fixed evaluation
    order LSL, LSR, RSL, RSR, RLR, LRL (strict comparison), and the returned
    path's type and three parameters are exactly those produced by that
    solver.  The winning word is characterised by its index j: it succeeds
    with output (t, p, q), its cost is at most the cost of every succeeding
    solver, and strictly below the cost of every earlier succeeding solver. -/
theorem dubins_init_normalised_selects_first_min
    (alpha beta d : ℝ) (p0 : DubinsPath) (j : Fin 6) (t p q : ℝ)
    (hj : dubins_words j alpha beta d = some (t, p, q))
    (hmin : ∀ i : Fin 6, ∀ t2 p2 q2 : ℝ,
      dubins_words i alpha beta d = some (t2, p2, q2) → t + p + q ≤ t2 + p2 + q2)
    (hstrict : ∀ i : Fin 6, i < j → ∀ t2 p2 q2 : ℝ,
      dubins_words i alpha beta d = some (t2, p2, q2) → t + p + q < t2 + p2 + q2) :
    dubins_init_normalised alpha beta d p0 =
      (EDUBOK, { p0 with param0 := t, param1 := p, param2 := q, type := j }) := by
  fin_cases j
  · have hloop2 : initLoop alpha beta d [0, 1, 2, 3, 4, 5] none p0 =
        (some (t + p + q, 0),
         { p0 with param0 := t, param1 := p, param2 := q, type := 0 }) :=
      initLoop_min alpha beta d [] [1, 2, 3, 4, 5] 0 t p q none p0 hj
        (fun i hi => absurd hi (List.not_mem_nil i))
        (fun i _ t2 p2 q2 h2 => hmin i t2 p2 q2 h2)
        (fun bc hbc => Option.noConfusion hbc)
    simp only [dubins_init_normalised, hloop2]
    rfl
  · have hloop2 : initLoop alpha beta d [0, 1, 2, 3, 4, 5] none p0 =
        (some (t + p + q, 1),
         { p0 with param0 := t, param1 := p, param2 := q, type := 1 }) :=
      initLoop_min alpha beta d [0] [2, 3, 4, 5] 1 t p q none p0 hj
        (by
          intro i hi t2 p2 q2 h2
          simp only [List.mem_cons, List.not_mem_nil, or_false] at hi
          subst hi
          exact hstrict _ (by decide) t2 p2 q2 h2)
        (fun i _ t2 p2 q2 h2 => hmin i t2 p2 q2 h2)
        (fun bc hbc => Option.noConfusion hbc)
    simp only [dubins_init_normalised, hloop2]
    rfl
  · have hloop2 : initLoop alpha beta d [0, 1, 2, 3, 4, 5] none p0 =
        (some (t + p + q, 2),
         { p0 with param0 := t, param1 := p, param2 := q, type := 2 }) :=
      initLoop_min alpha beta d [0, 1] [3, 4, 5] 2 t p q none p0 hj
        (by
          intro i hi t2 p2 q2 h2
          simp only [List.mem_cons, List.not_mem_nil, or_false] at hi
          rcases hi with rfl | rfl
          · exact hstrict _ (by decide) t2 p2 q2 h2
          · exact hstrict _ (by decide) t2 p2 q2 h2)
        (fun i _ t2 p2 q2 h2 => hmin i t2 p2 q2 h2)
        (fun bc hbc => Option.noConfusion hbc)
    simp only [dubins_init_normalised, hloop2]
    rfl
  · have hloop2 : initLoop alpha beta d [0, 1, 2, 3, 4, 5] none p0 =
        (some (t + p + q, 3),
         { p0 with param0 := t, param1 := p, param2 := q, type := 3 }) :=
      initLoop_min alpha beta d [0, 1, 2] [4, 5] 3 t p q none p0 hj
        (by
          intro i hi t2 p2 q2 h2
          simp only [List.mem_cons, List.not_mem_nil, or_false] at hi
          rcases hi with rfl | rfl | rfl
          · exact hstrict _ (by decide) t2 p2 q2 h2
          · exact hstrict _ (by decide) t2 p2 q2 h2
          · exact hstrict _ (by decide) t2 p2 q2 h2)
        (fun i _ t2 p2 q2 h2 => hmin i t2 p2 q2 h2)
        (fun bc hbc => Option.noConfusion hbc)
    simp only [dubins_init_normalised, hloop2]
    rfl
  · have hloop2 : initLoop alpha beta d [0, 1, 2, 3, 4, 5] none p0 =
        (some (t + p + q, 4),
         { p0 with param0 := t, param1 := p, param2 := q, type := 4 }) :=
      initLoop_min alpha beta d [0, 1, 2, 3] [5] 4 t p q none p0 hj
        (by
          intro i hi t2 p2 q2 h2
          simp only [List.mem_cons, List.not_mem_nil, or_false] at hi
          rcases hi with rfl | rfl | rfl | rfl
          · exact hstrict _ (by decide) t2 p2 q2 h2
          · exact hstrict _ (by decide) t2 p2 q2 h2
          · exact hstrict _ (by decide) t2 p2 q2 h2
          · exact hstrict _ (by decide) t2 p2 q2 h2)
        (fun i _ t2 p2 q2 h2 => hmin i t2 p2 q2 h2)
        (fun bc hbc => Option.noConfusion hbc)
    simp only [dubins_init_normalised, hloop2]
    rfl
  · have hloop2 : initLoop alpha beta d [0, 1, 2, 3, 4, 5] none p0 =
        (some (t + p + q, 5),
         { p0 with param0 := t, param1 := p, param2 := q, type := 5 }) :=
      initLoop_min alpha beta d [0, 1, 2, 3, 4] [] 5 t p q none p0 hj
        (by
          intro i hi t2 p2 q2 h2
          simp only [List.mem_cons, List.not_mem_nil, or_false] at hi
          rcases hi with rfl | rfl | rfl | rfl | rfl
          · exact hstrict _ (by decide) t2 p2 q2 h2
          · exact hstrict _ (by decide) t2 p2 q2 h2
          · exact hstrict _ (by decide) t2 p2 q2 h2
          · exact hstrict _ (by decide) t2 p2 q2 h2
          · exact hstrict _ (by decide) t2 p2 q2 h2)
        (fun i _ t2 p2 q2 h2 => hmin i t2 p2 q2 h2)
        (fun bc hbc => Option.noConfusion hbc)
    simp only [dubins_init_normalised, hloop2]
    rfl

/-- Witness for C1: at alpha = beta = d = 0, the LSL solver succeeds with
    output (0, 0, 0), which is minimal, so the word LSL (index 0) is
    selected with exactly those parameters. -/
theorem dubins_init_normalised_selects_first_min_witness :
    dubins_init_normalised 0 0 0 pathZero =
      (EDUBOK, { pathZero with param0 := 0, param1 := 0, param2 := 0, type := 0 }) :=
  dubins_init_normalised_selects_first_min 0 0 0 pathZero 0 0 0 0
    (by rw [dubins_words_w0]; exact dubins_LSL_eval_000)
    (fun i t2 p2 q2 h2 => by
      have hn := dubins_words_nonneg i h2
      have h1 := hn.1
      have h3 := hn.2.1
      have h4 := hn.2.2
      linarith)
    (fun i hi => (Nat.not_lt_zero i.val (Fin.lt_def.mp hi)).elim)

/-- C2: every path produced by a successful call to dubins_init has all three
    segment parameters nonnegative and a strictly positive turning radius:
    each solver's angular outputs are ring-modulus results, its straight
    output is a square root, and the loop only ever stores outputs of a
    succeeding solver. -/
theorem dubins_init_params_nonneg (q0 q1 : Pose) (rho : ℝ) (p0 path : DubinsPath)
    (h : dubins_init q0 q1 rho p0 = (EDUBOK, path)) :
    0 ≤ path.param0 ∧ 0 ≤ path.param1 ∧ 0 ≤ path.param2 ∧ 0 < path.rho := by
  have hok := dubins_init_ok q0 q1 h
  refine ⟨hok.1, hok.2.1, hok.2.2.1, ?_⟩
  rw [hok.2.2.2.1]
  exact hok.2.2.2.2.1

/-- Witness for C2: the degenerate synthesis pose0 = pose1 = (0,0,0) with
    rho = 1 succeeds, and the resulting path satisfies the invariant. -/
theorem dubins_init_params_nonneg_witness :
    0 ≤ pathDegenerate.param0 ∧ 0 ≤ pathDegenerate.param1 ∧
    0 ≤ pathDegenerate.param2 ∧ 0 < pathDegenerate.rho :=
  dubins_init_params_nonneg ⟨0, 0, 0⟩ ⟨0, 0, 0⟩ 1 pathZero pathDegenerate
    (dubins_init_eval_same pathZero)

/-- C3, counterexample: the claim fails on the degenerate zero-length path.
    Synthesising pose0 = pose1 = (0,0,0) with rho = 1 succeeds and yields the
    zero-length path, but sampling it at t = 0 returns the EDUBPARAM error
    (the range check rejects t = 0 because t >= totalLength = 0), rather than
    reproducing pose0. -/
theorem sample_at_zero_fails_on_degenerate :
    dubins_init ⟨0, 0, 0⟩ ⟨0, 0, 0⟩ 1 pathZero = (EDUBOK, pathDegenerate) ∧
    dubins_path_sample pathDegenerate 0 = .error EDUBPARAM := by
  refine ⟨dubins_init_eval_same pathZero, ?_⟩
  simp only [dubins_path_sample]
  rw [if_pos (Or.inr (by norm_num [dubins_path_length, pathDegenerate]))]

/-- C3, amended: for every path successfully produced by dubins_init whose
    total length is positive, sampling at t = 0 succeeds and returns a pose
    whose (x, y) equal pose0's (x, y) and whose heading equals pose0's
    heading modulo 2 pi.  (For the degenerate zero-length path the sample at
    t = 0 instead fails with EDUBPARAM, as t = 0 is not below the total
    length 0.) -/
theorem sample_at_zero_of_pos_length (q0 q1 : Pose) (rho : ℝ)
    (p0 path : DubinsPath)
    (h : dubins_init q0 q1 rho p0 = (EDUBOK, path))
    (hlen : 0 < dubins_path_length path) :
    dubins_path_sample path 0 = .ok ⟨q0.x, q0.y, mod2pi q0.theta⟩ := by
  have hok := dubins_init_ok q0 q1 h
  obtain ⟨h0, h1, h2, hrho, hrpos, hx, hy, hth⟩ := hok
  simp only [dubins_path_sample]
  rw [if_neg (not_or.mpr ⟨lt_irrefl 0, not_le.mpr hlen⟩)]
  simp only [samplePose, zero_div]
  by_cases hp1 : (0 : ℝ) < path.param0
  · rw [if_pos hp1]
    simp [dubins_segment_zero, hx, hy, hth]
  · have hp1e : path.param0 = 0 := le_antisymm (not_lt.mp hp1) h0
    rw [if_neg hp1]
    by_cases hp2 : (0 : ℝ) < path.param0 + path.param1
    · rw [if_pos hp2]
      simp [hp1e, dubins_segment_zero, hx, hy, hth]
    · have hp2e : path.param1 = 0 := by
        have := not_lt.mp hp2
        linarith
      rw [if_neg hp2]
      simp [hp1e, hp2e, dubins_segment_zero, hx, hy, hth]

/-- Witness for C3 (amended): the straight-line synthesis from (0,0,0) to
    (4,0,0) with rho = 1 has total length 4 > 0, and sampling at t = 0
    reproduces the initial pose. -/
theorem sample_at_zero_of_pos_length_witness :
    dubins_path_sample pathStraight 0 = .ok ⟨0, 0, mod2pi 0⟩ :=
  sample_at_zero_of_pos_length ⟨0, 0, 0⟩ ⟨4, 0, 0⟩ 1 pathZero pathStraight
    (dubins_init_eval_straight pathZero)
    (by norm_num [dubins_path_length, pathStraight])

/-- C4: for every pair of poses and every rho <= 0 (including rho = 0),
    dubins_init returns the EDUBBADRHO error and leaves the output path
    completely untouched; the normalised distance d = D / rho computed
    before the radius check is dead in the error branch, so nothing derived
    from it reaches the caller. -/
theorem dubins_init_invalid_radius (q0 q1 : Pose) (rho : ℝ) (p0 : DubinsPath)
    (h : rho ≤ 0) :
    dubins_init q0 q1 rho p0 = (EDUBBADRHO, p0) := by
  simp only [dubins_init]
  rw [if_pos h]

/-- Witness for C4: rho = 0. -/
theorem dubins_init_invalid_radius_witness :
    dubins_init ⟨0, 0, 0⟩ ⟨1, 1, 1⟩ 0 pathStraight = (EDUBBADRHO, pathStraight) :=
  dubins_init_invalid_radius ⟨0, 0, 0⟩ ⟨1, 1, 1⟩ 0 pathStraight le_rfl

/-- C5: dubins_path_sample returns the EDUBPARAM error exactly when t < 0 or
    t >= totalLength = rho * (param0 + param1 + param2); for t in
    [0, totalLength) it succeeds and produces a pose. -/
theorem dubins_path_sample_range_check (path : DubinsPath) (t : ℝ) :
    (dubins_path_sample path t = .error EDUBPARAM ↔
      t < 0 ∨ dubins_path_length path ≤ t) ∧
    (0 ≤ t → t < dubins_path_length path →
      ∃ qres, dubins_path_sample path t = .ok qres) := by
  constructor
  · constructor
    · intro h
      by_cases hc : t < 0 ∨ dubins_path_length path ≤ t
      · exact hc
      · exfalso
        simp only [dubins_path_sample] at h
        rw [if_neg hc] at h
        exact Except.noConfusion h
    · intro hc
      simp only [dubins_path_sample]
      rw [if_pos hc]
  · intro h0 h1
    refine ⟨samplePose path t, ?_⟩
    simp only [dubins_path_sample]
    rw [if_neg (not_or.mpr ⟨not_lt.mpr h0, not_le.mpr h1⟩)]

/-- Witness for C5: on the length-4 path, t = 5 is rejected with EDUBPARAM
    and t = 2 is accepted. -/
theorem dubins_path_sample_range_check_witness :
    dubins_path_sample pathStraight 5 = .error EDUBPARAM ∧
    ∃ qres, dubins_path_sample pathStraight 2 = .ok qres :=
  ⟨(dubins_path_sample_range_check pathStraight 5).1.mpr
      (Or.inr (by norm_num [dubins_path_length, pathStraight])),
   (dubins_path_sample_range_check pathStraight 2).2 (by norm_num)
      (by norm_num [dubins_path_length, pathStraight])⟩

/-- C6: for every path with nonnegative parameters and positive radius, and
    every t at or beyond the total length, dubins_extract_subpath returns a
    path equal to the original in every field: all three min-clamps resolve
    to the original parameters. -/
theorem extract_subpath_clamps_to_original (path : DubinsPath) (t : ℝ)
    (_h0 : 0 ≤ path.param0) (h1 : 0 ≤ path.param1) (h2 : 0 ≤ path.param2)
    (hrho : 0 < path.rho) (ht : dubins_path_length path ≤ t) :
    dubins_extract_subpath path t = (EDUBOK, path) := by
  have htp : path.param0 + path.param1 + path.param2 ≤ t / path.rho := by
    rw [le_div_iff₀ hrho]
    exact ht
  have e0 : min path.param0 (t / path.rho) = path.param0 :=
    min_eq_left (by linarith)
  have e1 : min path.param1 (t / path.rho - path.param0) = path.param1 :=
    min_eq_left (by linarith)
  have e2 : min path.param2 (t / path.rho - path.param0 - path.param1) =
      path.param2 := min_eq_left (by linarith)
  simp only [dubins_extract_subpath, e0, e1, e2]

/-- Witness for C6: extracting a subpath of length 5 from the length-4 path
    returns the path unchanged. -/
theorem extract_subpath_clamps_to_original_witness :
    dubins_extract_subpath pathStraight 5 = (EDUBOK, pathStraight) :=
  extract_subpath_clamps_to_original pathStraight 5
    (by norm_num [pathStraight]) (by norm_num [pathStraight])
    (by norm_num [pathStraight]) (by norm_num [pathStraight])
    (by norm_num [dubins_path_length, pathStraight])

/-- C7: dubins_extract_subpath never reports an error (its result code is
    always EDUBOK), and for t < 0 (on a path with positive radius and
    nonnegative first parameter) the produced first parameter equals t / rho,
    which is negative, violating the parameter-nonnegativity invariant. -/
theorem extract_subpath_never_errors (path : DubinsPath) (t : ℝ) :
    (dubins_extract_subpath path t).1 = EDUBOK ∧
    (t < 0 → 0 < path.rho → 0 ≤ path.param0 →
      (dubins_extract_subpath path t).2.param0 = t / path.rho ∧
      (dubins_extract_subpath path t).2.param0 < 0) := by
  refine ⟨rfl, fun ht hrho h0 => ?_⟩
  have hneg : t / path.rho < 0 := div_neg_of_neg_of_pos ht hrho
  have e0 : min path.param0 (t / path.rho) = t / path.rho :=
    min_eq_right (le_of_lt (lt_of_lt_of_le hneg h0))
  constructor
  · simp only [dubins_extract_subpath]
    exact e0
  · simp only [dubins_extract_subpath]
    rw [e0]
    exact hneg

/-- Witness for C7: extracting with t = -1 from the length-4 path succeeds
    and stores the negative first parameter -1. -/
theorem extract_subpath_never_errors_witness :
    (dubins_extract_subpath pathStraight (-1)).1 = EDUBOK ∧
    (dubins_extract_subpath pathStraight (-1)).2.param0 = -1 / pathStraight.rho ∧
    (dubins_extract_subpath pathStraight (-1)).2.param0 < 0 := by
  have h := extract_subpath_never_errors pathStraight (-1)
  have h2 := h.2 (by norm_num) (by norm_num [pathStraight])
    (by norm_num [pathStraight])
  exact ⟨h.1, h2.1, h2.2⟩

/-- C8: for positive stepSize the while loop of dubins_path_sample_many
    terminates (enough fuel makes it return a value), it invokes the visitor
    at x = 0, stepSize, 2*stepSize, ... strictly below the total length and
    returns the first nonzero visitor value, or 0 once x reaches the total
    length; for a path of nonpositive length the result is 0 for every
    visitor (the visitor is never consulted). -/
theorem sample_many_first_nonzero (path : DubinsPath) (cb : Pose → ℝ → ℤ)
    (stepSize : ℝ) (fuel : ℕ) (q0 : Pose) (hstep : 0 < stepSize)
    (hfuel : ⌈dubins_path_length path / stepSize⌉₊ + 1 ≤ fuel) :
    dubins_path_sample_many path cb stepSize fuel q0 =
      some (sampleManySpec path cb stepSize) ∧
    (dubins_path_length path ≤ 0 →
      ∀ cb2 : Pose → ℝ → ℤ, sampleManySpec path cb2 stepSize = 0) := by
  constructor
  · obtain ⟨m, rfl⟩ : ∃ m, fuel = m + 1 := ⟨fuel - 1, by omega⟩
    have h := sampleManyLoop_eq path cb stepSize hstep m 0 q0 (by omega)
    rw [show ((0 : ℕ) : ℝ) * stepSize = 0 by norm_num] at h
    rw [Nat.sub_zero] at h
    unfold dubins_path_sample_many sampleManySpec
    rw [List.range_eq_range']
    exact h
  · intro hlen cb2
    unfold sampleManySpec
    have hceil : ⌈dubins_path_length path / stepSize⌉₊ = 0 := by
      rw [Nat.ceil_eq_zero]
      exact div_nonpos_iff.mpr (Or.inr ⟨hlen, hstep.le⟩)
    rw [hceil]
    rfl

/-- Witness for C8: on the zero-length path with stepSize 1, one unit of
    fuel suffices and the loop returns 0 without invoking the visitor. -/
theorem sample_many_first_nonzero_witness :
    dubins_path_sample_many pathZero (fun _ _ => 1) 1 1 ⟨0, 0, 0⟩ =
      some (sampleManySpec pathZero (fun _ _ => 1) 1) :=
  (sample_many_first_nonzero pathZero (fun _ _ => 1) 1 1 ⟨0, 0, 0⟩ (by norm_num)
    (by norm_num [dubins_path_length, pathZero])).1

/-- C9: dubins_segment_length and dubins_segment_length_normalized return
    the infinite sentinel (not an error) whenever the index is outside
    {0, 1, 2}, and return param[i] * rho and param[i] respectively for an
    index in range. -/
theorem segment_length_sentinel (path : DubinsPath) (i : ℤ) :
    ((i < 0 ∨ 2 < i) →
      dubins_segment_length path i = ⊤ ∧
      dubins_segment_length_normalized path i = ⊤) ∧
    (i = 0 →
      dubins_segment_length path i = ((path.param0 * path.rho : ℝ) : EReal) ∧
      dubins_segment_length_normalized path i = ((path.param0 : ℝ) : EReal)) ∧
    (i = 1 →
      dubins_segment_length path i = ((path.param1 * path.rho : ℝ) : EReal) ∧
      dubins_segment_length_normalized path i = ((path.param1 : ℝ) : EReal)) ∧
    (i = 2 →
      dubins_segment_length path i = ((path.param2 * path.rho : ℝ) : EReal) ∧
      dubins_segment_length_normalized path i = ((path.param2 : ℝ) : EReal)) := by
  refine ⟨fun h => ⟨?_, ?_⟩, fun h => ?_, fun h => ?_, fun h => ?_⟩
  · simp only [dubins_segment_length]
    rw [if_pos h]
  · simp only [dubins_segment_length_normalized]
    rw [if_pos h]
  · subst h
    constructor
    · simp only [dubins_segment_length]
      rw [if_neg (by norm_num)]
      rfl
    · simp only [dubins_segment_length_normalized]
      rw [if_neg (by norm_num)]
      rfl
  · subst h
    constructor
    · simp only [dubins_segment_length]
      rw [if_neg (by norm_num)]
      rfl
    · simp only [dubins_segment_length_normalized]
      rw [if_neg (by norm_num)]
      rfl
  · subst h
    constructor
    · simp only [dubins_segment_length]
      rw [if_neg (by norm_num)]
      rfl
    · simp only [dubins_segment_length_normalized]
      rw [if_neg (by norm_num)]
      rfl

/-- Witness for C9: index 3 is out of range and yields the infinite
    sentinel; index 1 yields the middle parameter. -/
theorem segment_length_sentinel_witness :
    dubins_segment_length pathStraight 3 = ⊤ ∧
    dubins_segment_length_normalized pathStraight 3 = ⊤ ∧
    dubins_segment_length_normalized pathStraight 1 =
      ((pathStraight.param1 : ℝ) : EReal) := by
  have h3 := (segment_length_sentinel pathStraight 3).1 (Or.inr (by norm_num))
  have h1 := ((segment_length_sentinel pathStraight 1).2.2.1 rfl).2
  exact ⟨h3.1, h3.2, h1⟩

/-- C10: dubins_init writes the output path's initial pose qi and radius rho
    before invoking any solver, so for rho > 0 those fields are always
    overwritten, and in particular when it returns EDUBNOPATH the param and
    type fields alone are left untouched; for rho <= 0 (EDUBBADRHO) the
    output path is entirely untouched. -/
theorem dubins_init_frame_effects (q0 q1 : Pose) (rho : ℝ) (p0 : DubinsPath) :
    (rho ≤ 0 → dubins_init q0 q1 rho p0 = (EDUBBADRHO, p0)) ∧
    (0 < rho →
      ((dubins_init q0 q1 rho p0).2.qi0 = q0.x ∧
       (dubins_init q0 q1 rho p0).2.qi1 = q0.y ∧
       (dubins_init q0 q1 rho p0).2.qi2 = q0.theta ∧
       (dubins_init q0 q1 rho p0).2.rho = rho) ∧
      ((dubins_init q0 q1 rho p0).1 = EDUBNOPATH →
        (dubins_init q0 q1 rho p0).2.param0 = p0.param0 ∧
        (dubins_init q0 q1 rho p0).2.param1 = p0.param1 ∧
        (dubins_init q0 q1 rho p0).2.param2 = p0.param2 ∧
        (dubins_init q0 q1 rho p0).2.type = p0.type)) := by
  constructor
  · intro h
    simp only [dubins_init]
    rw [if_pos h]
  · intro hrho
    have hneg : ¬rho ≤ 0 := not_le.mpr hrho
    simp only [dubins_init]
    rw [if_neg hneg]
    refine ⟨⟨?_, ?_, ?_, ?_⟩, fun hnp => ?_⟩
    · exact (init_normalised_frame _ _ _ _).1.1
    · exact (init_normalised_frame _ _ _ _).1.2.1
    · exact (init_normalised_frame _ _ _ _).1.2.2.1
    · exact (init_normalised_frame _ _ _ _).1.2.2.2
    · have h2 := (init_normalised_frame _ _ _ _).2 hnp
      refine ⟨?_, ?_, ?_, ?_⟩ <;> rw [h2]

/-- Witness for C10: with rho = 1 the output path's qi and rho fields are
    overwritten with the inputs. -/
theorem dubins_init_frame_effects_witness :
    (dubins_init ⟨1, 2, 3⟩ ⟨4, 5, 6⟩ 1 pathStraight).2.qi0 = 1 ∧
    (dubins_init ⟨1, 2, 3⟩ ⟨4, 5, 6⟩ 1 pathStraight).2.qi1 = 2 ∧
    (dubins_init ⟨1, 2, 3⟩ ⟨4, 5, 6⟩ 1 pathStraight).2.qi2 = 3 ∧
    (dubins_init ⟨1, 2, 3⟩ ⟨4, 5, 6⟩ 1 pathStraight).2.rho = 1 :=
  ((dubins_init_frame_effects ⟨1, 2, 3⟩ ⟨4, 5, 6⟩ 1 pathStraight).2
    (by norm_num)).1

end

end Dubins
